import Mathlib

/-!
Verification development for the peewee-sqlite-jsonfield adapter
(src/peewee_sqlite_jsonfield/__init__.py).

The adapter converts in-memory structured values to JSON column text and
back, builds peewee/SQLite JSON1 query expressions, caches a per-handle
JSON1 capability probe, and provisions JSON-path expression indexes.

The Python runtime values that can reach `db_value` / `python_value` are
modelled as the tagged union `PyObj`; the serializer pair chosen by
`_pick_serializer` (orjson / ujson / stdlib json — all external libraries,
none part of this repository) is modelled from the spec by a concrete JSON
renderer (`jsonDumps`) and recursive-descent decoder (`jsonParse`).
-/

/-- Python runtime values relevant to the adapter: the possible inputs of
`db_value` and the possible driver return values seen by `python_value`.
`pyFloat` is a payload-free marker: floating-point payloads are outside the
modelled domain, and no claim computes with them. `pyOther` stands for any
runtime value of a type not handled specially by the adapter. -/
inductive PyObj where
  | pyNone   : PyObj
  | pyBool   : Bool → PyObj
  | pyInt    : Int → PyObj
  | pyFloat  : PyObj
  | pyStr    : String → PyObj
  | pyBytes  : List Nat → PyObj
  | pyList   : List PyObj → PyObj
  | pyDict   : List (String × PyObj) → PyObj
  | pyOther  : PyObj

open PyObj

/-- A digit character: code point 48 + d. -/
def digitChar (d : Nat) : Char := Char.ofNat (48 + d)

/-- Decimal digit list of a natural number, most significant first. -/
def natDigits (n : Nat) : List Char :=
  if n < 10 then [digitChar n]
  else natDigits (n / 10) ++ [digitChar (n % 10)]
decreasing_by exact Nat.div_lt_self (by omega) (by omega)

/-- Decimal rendering of an integer, with a leading minus sign when negative. -/
def intDigits (i : Int) : List Char :=
  if i < 0 then '-' :: natDigits i.natAbs else natDigits i.natAbs

/-- Hex digit character for a value below 16 (lowercase letters). -/
def hexChar (n : Nat) : Char :=
  if n < 10 then Char.ofNat (48 + n) else Char.ofNat (87 + n)

/-- JSON escaping of one character: quote and backslash get a backslash
escape, control characters a \u00XX escape, all else passes through. -/
def escapeChar (c : Char) : List Char :=
  if c = '"' then ['\\', '"']
  else if c = '\\' then ['\\', '\\']
  else if c.toNat < 32 then
    ['\\', 'u', '0', '0', hexChar (c.toNat / 16), hexChar (c.toNat % 16)]
  else [c]

/-- JSON escaping of a character list. -/
def escapeL : List Char → List Char
  | [] => []
  | c :: cs => escapeChar c ++ escapeL cs

mutual
/-- Modelled from the spec: character-level JSON rendering of a structured
value, as the serializer selector's `encode` (orjson / ujson / stdlib json
are external libraries not in src/; compact separators as in the fast
encoders; `ensure_ascii=False`, the field's default). Non-representable
values (bytes, floats, other) render to the empty list and are excluded by
`representable`. -/
def renderL : PyObj → List Char
  | pyNone => ['n', 'u', 'l', 'l']
  | pyBool true => ['t', 'r', 'u', 'e']
  | pyBool false => ['f', 'a', 'l', 's', 'e']
  | pyInt i => intDigits i
  | pyStr s => '"' :: (escapeL s.data ++ ['"'])
  | pyList xs => '[' :: (renderElems xs ++ [']'])
  | pyDict kvs => '{' :: (renderMembers kvs ++ ['}'])
  | pyFloat => []
  | pyBytes _ => []
  | pyOther => []

/-- Rendering of array elements, comma separated. -/
def renderElems : List PyObj → List Char
  | [] => []
  | [x] => renderL x
  | x :: xs => renderL x ++ ',' :: renderElems xs

/-- Rendering of object members, comma separated. -/
def renderMembers : List (String × PyObj) → List Char
  | [] => []
  | [(k, v)] => '"' :: (escapeL k.data ++ '"' :: ':' :: renderL v)
  | (k, v) :: kvs =>
      ('"' :: (escapeL k.data ++ '"' :: ':' :: renderL v)) ++ ',' :: renderMembers kvs
end

mutual
/-- Whether a value is JSON-representable (the serializer's domain):
mappings, sequences, strings, integers, booleans and null. -/
def representable : PyObj → Bool
  | pyNone => true
  | pyBool _ => true
  | pyInt _ => true
  | pyStr _ => true
  | pyList xs => representableElems xs
  | pyDict kvs => representableMembers kvs
  | pyFloat => false
  | pyBytes _ => false
  | pyOther => false

/-- All elements representable. -/
def representableElems : List PyObj → Bool
  | [] => true
  | x :: xs => representable x && representableElems xs

/-- All member values representable. -/
def representableMembers : List (String × PyObj) → Bool
  | [] => true
  | (_, v) :: kvs => representable v && representableMembers kvs
end

mutual
/-- Fuel measure for the decoder: an upper bound on the recursion depth the
parser needs to reconsume a rendered value. -/
def psize : PyObj → Nat
  | pyList xs => 2 + psizeElems xs
  | pyDict kvs => 2 + psizeMembers kvs
  | _ => 1

/-- Fuel measure for array elements. -/
def psizeElems : List PyObj → Nat
  | [] => 0
  | x :: xs => 1 + psize x + psizeElems xs

/-- Fuel measure for object members. -/
def psizeMembers : List (String × PyObj) → Nat
  | [] => 0
  | (_, v) :: kvs => 1 + psize v + psizeMembers kvs
end

/-- JSON insignificant whitespace. -/
def isWsC (c : Char) : Bool :=
  c = ' ' || c = '\n' || c = '\r' || c = '\t'

/-- Skip insignificant whitespace. -/
def skipWs (cs : List Char) : List Char := cs.dropWhile isWsC

/-- ASCII decimal digit test. -/
def isDigitC (c : Char) : Bool := 48 ≤ c.toNat && c.toNat ≤ 57

/-- Value of an ASCII decimal digit. -/
def digitVal (c : Char) : Nat := c.toNat - 48

/-- Parse a maximal nonempty run of decimal digits. -/
def parseNat (cs : List Char) : Option (Nat × List Char) :=
  let ds := cs.takeWhile isDigitC
  if ds.isEmpty then none
  else some (ds.foldl (fun a c => a * 10 + digitVal c) 0, cs.dropWhile isDigitC)

/-- Value of a hex digit character. -/
def hexVal (c : Char) : Option Nat :=
  if 48 ≤ c.toNat && c.toNat ≤ 57 then some (c.toNat - 48)
  else if 97 ≤ c.toNat && c.toNat ≤ 102 then some (c.toNat - 87)
  else if 65 ≤ c.toNat && c.toNat ≤ 70 then some (c.toNat - 55)
  else none

/-- Unescape a single-character JSON escape. -/
def unescapeChar (c : Char) : Option Char :=
  if c = '"' then some '"'
  else if c = '\\' then some '\\'
  else if c = '/' then some '/'
  else if c = 'n' then some '\n'
  else if c = 't' then some '\t'
  else if c = 'r' then some '\r'
  else if c = 'b' then some (Char.ofNat 8)
  else if c = 'f' then some (Char.ofNat 12)
  else none

/-- Parse the body of a JSON string literal (after the opening quote), up to
and including the closing quote. -/
def parseStringBody : List Char → Option (List Char × List Char)
  | [] => none
  | c :: rest =>
    if c = '"' then some ([], rest)
    else if c = '\\' then
      match rest with
      | [] => none
      | e :: rest₂ =>
        if e = 'u' then
          match rest₂ with
          | h₁ :: h₂ :: h₃ :: h₄ :: rest₃ =>
            match hexVal h₁, hexVal h₂, hexVal h₃, hexVal h₄ with
            | some a, some b, some c₂, some d =>
              let n := ((a * 16 + b) * 16 + c₂) * 16 + d
              if n.isValidChar then
                (parseStringBody rest₃).map (fun p => (Char.ofNat n :: p.1, p.2))
              else none
            | _, _, _, _ => none
          | _ => none
        else
          match unescapeChar e with
          | some ch => (parseStringBody rest₂).map (fun p => (ch :: p.1, p.2))
          | none => none
    else if c.toNat < 32 then none
    else (parseStringBody rest).map (fun p => (c :: p.1, p.2))

mutual
/-- Modelled from the spec: fuel-indexed recursive-descent JSON value
decoder, as the serializer selector's `decode` (the underlying JSON
libraries are external and not in src/). Floating-point literals are
outside the modelled domain and are rejected. -/
def parseValue : Nat → List Char → Option (PyObj × List Char)
  | 0, _ => none
  | f + 1, cs =>
    match skipWs cs with
    | [] => none
    | c :: rest =>
      if c = 'n' then
        match rest with
        | 'u' :: 'l' :: 'l' :: r => some (pyNone, r)
        | _ => none
      else if c = 't' then
        match rest with
        | 'r' :: 'u' :: 'e' :: r => some (pyBool true, r)
        | _ => none
      else if c = 'f' then
        match rest with
        | 'a' :: 'l' :: 's' :: 'e' :: r => some (pyBool false, r)
        | _ => none
      else if c = '"' then
        (parseStringBody rest).map (fun p => (pyStr (String.mk p.1), p.2))
      else if c = '[' then parseArr f rest
      else if c = '{' then parseObj f rest
      else if c = '-' then
        (parseNat rest).map (fun p => (pyInt (-(p.1 : Int)), p.2))
      else if isDigitC c then
        (parseNat (c :: rest)).map (fun p => (pyInt (p.1 : Int), p.2))
      else none

/-- Parse the remainder of a JSON array after the opening bracket. -/
def parseArr : Nat → List Char → Option (PyObj × List Char)
  | 0, _ => none
  | f + 1, cs =>
    match skipWs cs with
    | [] => none
    | c :: r =>
      if c = ']' then some (pyList [], r)
      else (parseElems f (c :: r)).map (fun p => (pyList p.1, p.2))

/-- Parse one or more comma-separated array elements and the closing
bracket. -/
def parseElems : Nat → List Char → Option (List PyObj × List Char)
  | 0, _ => none
  | f + 1, cs =>
    match parseValue f cs with
    | none => none
    | some (v, r₁) =>
      match skipWs r₁ with
      | ',' :: r₂ =>
        match parseElems f r₂ with
        | some (vs, r₃) => some (v :: vs, r₃)
        | none => none
      | ']' :: r₂ => some ([v], r₂)
      | _ => none

/-- Parse the remainder of a JSON object after the opening brace. -/
def parseObj : Nat → List Char → Option (PyObj × List Char)
  | 0, _ => none
  | f + 1, cs =>
    match skipWs cs with
    | [] => none
    | c :: r =>
      if c = '}' then some (pyDict [], r)
      else (parseMembers f (c :: r)).map (fun p => (pyDict p.1, p.2))

/-- Parse one or more comma-separated object members and the closing
brace. -/
def parseMembers : Nat → List Char → Option (List (String × PyObj) × List Char)
  | 0, _ => none
  | f + 1, cs =>
    match skipWs cs with
    | c :: rest =>
      if c = '"' then
        match parseStringBody rest with
        | none => none
        | some (k, r₁) =>
          match skipWs r₁ with
          | c₂ :: r₂ =>
            if c₂ = ':' then
              match parseValue f r₂ with
              | none => none
              | some (v, r₃) =>
                match skipWs r₃ with
                | ',' :: r₄ =>
                  match parseMembers f r₄ with
                  | some (kvs, r₅) => some ((String.mk k, v) :: kvs, r₅)
                  | none => none
                | '}' :: r₄ => some ([(String.mk k, v)], r₄)
                | _ => none
            else none
          | [] => none
      else none
    | [] => none
end

/-- Modelled from the spec: the serializer selector's `encode` — JSON text
of a representable value, failing (an exception in Python) outside the
representable domain. -/
def jsonDumps (v : PyObj) : Option String :=
  if representable v then some (String.mk (renderL v)) else none

/-- Modelled from the spec: the serializer selector's `decode` — parse JSON
text in full (allowing surrounding whitespace), failing on malformed
text. -/
def jsonParse (s : String) : Option PyObj :=
  match parseValue (2 * s.data.length + 2) s.data with
  | some (v, r) => if (skipWs r).isEmpty then some v else none
  | none => none

/-- Whether a string is valid JSON text for the modelled decoder. -/
def jsonValid (s : String) : Bool := (jsonParse s).isSome

/-- UTF-8 decoding of a byte list with invalid sequences skipped, modelling
Python's `bytes.decode("utf-8", errors="ignore")`: a total function. -/
def utf8DecodeIgnore : List Nat → List Char
  | [] => []
  | b :: rest =>
    if b < 128 then Char.ofNat b :: utf8DecodeIgnore rest
    else if 194 ≤ b ∧ b ≤ 223 then
      match rest with
      | b₂ :: r₂ =>
        if 128 ≤ b₂ ∧ b₂ ≤ 191 then
          Char.ofNat ((b - 192) * 64 + (b₂ - 128)) :: utf8DecodeIgnore r₂
        else utf8DecodeIgnore (b₂ :: r₂)
      | [] => []
    else if 224 ≤ b ∧ b ≤ 239 then
      match rest with
      | b₂ :: b₃ :: r₃ =>
        if 128 ≤ b₂ ∧ b₂ ≤ 191 ∧ 128 ≤ b₃ ∧ b₃ ≤ 191 ∧
            Nat.isValidChar ((b - 224) * 4096 + (b₂ - 128) * 64 + (b₃ - 128)) then
          Char.ofNat ((b - 224) * 4096 + (b₂ - 128) * 64 + (b₃ - 128)) :: utf8DecodeIgnore r₃
        else utf8DecodeIgnore (b₂ :: b₃ :: r₃)
      | r => utf8DecodeIgnore r
    else if 240 ≤ b ∧ b ≤ 244 then
      match rest with
      | b₂ :: b₃ :: b₄ :: r₄ =>
        if 128 ≤ b₂ ∧ b₂ ≤ 191 ∧ 128 ≤ b₃ ∧ b₃ ≤ 191 ∧ 128 ≤ b₄ ∧ b₄ ≤ 191 ∧
            Nat.isValidChar ((b - 240) * 262144 + (b₂ - 128) * 4096 + (b₃ - 128) * 64 + (b₄ - 128)) then
          Char.ofNat ((b - 240) * 262144 + (b₂ - 128) * 4096 + (b₃ - 128) * 64 + (b₄ - 128)) ::
            utf8DecodeIgnore r₄
        else utf8DecodeIgnore (b₂ :: b₃ :: b₄ :: r₄)
      | r => utf8DecodeIgnore r
    else utf8DecodeIgnore rest

/-- The field's conversion-relevant configuration: `null_to_empty` plus the
encode/decode pair, which the constructor lets callers override (the
defaults close over the selected serializer and the field's `ensure_ascii`).
An encode result of `Option.none` models the Python callable raising, as
does a decode result of `Option.none`. -/
structure SQLiteJSONField where
  null_to_empty : Bool
  dumps : PyObj → Option String
  loads : String → Option PyObj

/-- `SQLiteJSONField.db_value`: null becomes the empty-object marker or an
engine NULL depending on `null_to_empty`; a string passes through
unchanged; anything else is encoded. The outer `Option` models an
exception escaping (only possible from `dumps`); the inner one is the
nullable column value. -/
def SQLiteJSONField.db_value (f : SQLiteJSONField) (v : PyObj) : Option (Option String) :=
  match v with
  | pyNone => some (if f.null_to_empty then some "{}" else none)
  | pyStr s => some (some s)
  | v => (f.dumps v).map some

/-- The local `_try_load` of `python_value`: decode, and on any exception
return the empty mapping. -/
def try_load (f : SQLiteJSONField) (txt : String) : PyObj :=
  match f.loads txt with
  | some r => r
  | none => pyDict []

/-- `SQLiteJSONField.python_value`: null → empty mapping; already-decoded
dict/list/int/float/bool pass through; bytes are UTF-8-decoded with errors
ignored then decoded via `_try_load`; strings are decoded via `_try_load`;
anything else → empty mapping. The outer `Option` models an exception
escaping the call. -/
def SQLiteJSONField.python_value (f : SQLiteJSONField) (v : PyObj) : Option PyObj :=
  match v with
  | pyNone => some (pyDict [])
  | pyDict kvs => some (pyDict kvs)
  | pyList xs => some (pyList xs)
  | pyInt i => some (pyInt i)
  | pyFloat => some pyFloat
  | pyBool b => some (pyBool b)
  | pyBytes bs => some (try_load f (String.mk (utf8DecodeIgnore bs)))
  | pyStr s => some (try_load f s)
  | pyOther => some (pyDict [])

/-- The field as constructed with all defaults: `null_to_empty=True` and
the selected serializer pair. -/
def defaultField : SQLiteJSONField :=
  { null_to_empty := true, dumps := jsonDumps, loads := jsonParse }

/-- What the driver hands back to `python_value` for a stored column value:
an SQL NULL is returned as Python `None`, text as a `str`. -/
def colToPy : Option String → PyObj
  | some s => pyStr s
  | none => pyNone

/-- Store a value and read it back: `python_value` after `db_value`. -/
def roundTrip (f : SQLiteJSONField) (v : PyObj) : Option PyObj :=
  (f.db_value v).bind (fun c => f.python_value (colToPy c))

/-- Lookup in the capability cache (`_JSON1_CACHE`), keyed by handle
identity. -/
def lookupCache : List (Nat × Bool) → Nat → Option Bool
  | [], _ => none
  | (k, b) :: rest, db => if k = db then some b else lookupCache rest db

/-- `_check_json1`: resolve the target handle (a fresh in-memory handle
when none is given), consult the cache, and otherwise run the probe query
and record its outcome. Handles are modelled by identity as `Nat`;
`probeOk` gives each handle's probe outcome (`execute_sql` succeeding or
raising); `freshId` is the identity of the in-memory handle a no-argument
call would create. Returns the flag, the updated cache, and whether the
probe query was executed on this call. -/
def check_json1 (probeOk : Nat → Bool) (db : Option Nat) (freshId : Nat)
    (cache : List (Nat × Bool)) : Bool × List (Nat × Bool) × Bool :=
  let target := db.getD freshId
  match lookupCache cache target with
  | some b => (b, cache, false)
  | none => (probeOk target, (target, probeOk target) :: cache, true)

/-- SQLite runtime values produced by the modelled expressions. -/
inductive SqlVal where
  | null : SqlVal
  | int : Int → SqlVal
  | text : String → SqlVal
deriving DecidableEq

/-- The peewee expression fragments the query helpers build: the column
(`self`), a bound text parameter, a bound NULL, `fn.json_extract(·,·)`,
`.cast(ty)`, and peewee's `>>` operator, which is SQL `IS`. -/
inductive SqlExpr where
  | field : SqlExpr
  | litText : String → SqlExpr
  | litNull : SqlExpr
  | fnJsonExtract : SqlExpr → SqlExpr → SqlExpr
  | castTo : String → SqlExpr → SqlExpr
  | isOp : SqlExpr → SqlExpr → SqlExpr

/-- `SQLiteJSONField.json_extract`: `fn.json_extract(self, path).cast("TEXT")`. -/
def json_extract_expr (path : String) : SqlExpr :=
  SqlExpr.castTo "TEXT" (SqlExpr.fnJsonExtract SqlExpr.field (SqlExpr.litText path))

/-- `SQLiteJSONField.contains_key`: `fn.json_extract(self, path) >> None`,
peewee's `IS` against NULL. -/
def contains_key_expr (path : String) : SqlExpr :=
  SqlExpr.isOp (SqlExpr.fnJsonExtract SqlExpr.field (SqlExpr.litText path)) SqlExpr.litNull

/-- One step of a JSON path: object-key access (the only form the claims
evaluate). -/
def pathIdentChar (c : Char) : Bool := c ≠ '.' && c ≠ '[' && c ≠ ']'

/-- Parse the steps after the root marker of a JSON path: a sequence of
`.key` accesses. -/
def parsePathSteps : Nat → List Char → Option (List String)
  | 0, _ => none
  | _ + 1, [] => some []
  | f + 1, c :: rest =>
    if c = '.' then
      let k := rest.takeWhile pathIdentChar
      if k.isEmpty then none
      else
        match parsePathSteps f (rest.dropWhile pathIdentChar) with
        | some ks => some (String.mk k :: ks)
        | none => none
    else none

/-- Parse a JSON path of the form `$.k₁.k₂…` as SQLite's json path syntax
(the fragment of the syntax exercised by the claims). -/
def parsePath (p : String) : Option (List String) :=
  match p.data with
  | '$' :: rest => parsePathSteps (p.data.length + 1) rest
  | _ => none

/-- First-match association lookup among object members. -/
def lookupKey : List (String × PyObj) → String → Option PyObj
  | [], _ => none
  | (k, v) :: rest, key => if k = key then some v else lookupKey rest key

/-- Navigate a parsed path within a decoded JSON value; `none` when the
path does not resolve. -/
def pathLookup : PyObj → List String → Option PyObj
  | v, [] => some v
  | pyDict kvs, k :: rest =>
    match lookupKey kvs k with
    | some v => pathLookup v rest
    | none => none
  | _, _ => none

/-- The SQL value SQLite's `json_extract` produces for an extracted JSON
value: JSON null → SQL NULL, booleans → 0/1, strings → bare text, objects
and arrays → their (minified) JSON text. -/
def pyToSql : PyObj → SqlVal
  | pyNone => SqlVal.null
  | pyBool b => SqlVal.int (if b then 1 else 0)
  | pyInt i => SqlVal.int i
  | pyStr s => SqlVal.text s
  | pyList xs => SqlVal.text (String.mk (renderL (pyList xs)))
  | pyDict kvs => SqlVal.text (String.mk (renderL (pyDict kvs)))
  | _ => SqlVal.null

/-- SQLite's `json_extract(doc, path)` on text arguments: a runtime error
(`none`) on malformed JSON or a malformed path, SQL NULL for an absent
path, otherwise the extracted value. -/
def jsonExtractFn (doc path : String) : Option SqlVal :=
  match jsonParse doc with
  | none => none
  | some j =>
    match parsePath path with
    | none => none
    | some steps =>
      match pathLookup j steps with
      | none => some SqlVal.null
      | some v => some (pyToSql v)

/-- SQLite `CAST(· AS TEXT)`. -/
def castText : SqlVal → SqlVal
  | SqlVal.null => SqlVal.null
  | SqlVal.int i => SqlVal.text (String.mk (intDigits i))
  | SqlVal.text s => SqlVal.text s

/-- Evaluate an expression fragment against a row whose JSON column stores
`colText`; `none` is an SQL runtime error. -/
def evalExpr (colText : String) : SqlExpr → Option SqlVal
  | SqlExpr.field => some (SqlVal.text colText)
  | SqlExpr.litText s => some (SqlVal.text s)
  | SqlExpr.litNull => some SqlVal.null
  | SqlExpr.fnJsonExtract a b =>
    match evalExpr colText a, evalExpr colText b with
    | some (SqlVal.text doc), some (SqlVal.text p) => jsonExtractFn doc p
    | some SqlVal.null, some _ => some SqlVal.null
    | _, _ => none
  | SqlExpr.castTo ty e =>
    match evalExpr colText e with
    | some v => if ty = "TEXT" then some (castText v) else none
    | none => none
  | SqlExpr.isOp a b =>
    match evalExpr colText a, evalExpr colText b with
    | some x, some y => some (SqlVal.int (if x = y then 1 else 0))
    | _, _ => none

/-- The `_Idx` named tuple returned by `create_json_index`. -/
structure _Idx where
  name : String

/-- Errors `create_json_index` can raise: the JSON1 configuration
`RuntimeError`, or an error propagating from the DDL execution. -/
inductive IdxError where
  | noJson1 : IdxError
  | ddlError : String → IdxError
deriving DecidableEq

/-- Strip all leading occurrences of a character (`str.lstrip("$")`). -/
def lstripChar (c : Char) (l : List Char) : List Char := l.dropWhile (· = c)

/-- Replace every occurrence of a character (`str.replace(old, new)` with a
one-character pattern). -/
def replaceChar (old new : Char) (l : List Char) : List Char :=
  l.map (fun c => if c = old then new else c)

/-- Delete every occurrence of a character (`str.replace(old, "")`). -/
def dropCharAll (old : Char) (l : List Char) : List Char := l.filter (· ≠ old)

/-- `path.lstrip("$").replace(".", "_").replace("[", "_").replace("]", "")`. -/
def sanitizePath (path : String) : String :=
  String.mk (dropCharAll ']' (replaceChar '[' '_' (replaceChar '.' '_' (lstripChar '$' path.data))))

/-- The DDL statement `create_json_index` issues. -/
def indexDdl (uniq : Bool) (idx table col path : String) : String :=
  "CREATE " ++ (if uniq then "UNIQUE " else "") ++ "INDEX IF NOT EXISTS \"" ++ idx ++
    "\" ON \"" ++ table ++ "\" (json_extract(\"" ++ col ++ "\", \"" ++ path ++ "\"));"

/-- `create_json_index`: require the capability flag (the result of
`_check_json1(None)`, passed in as `json1`), derive the index name when
none is given, execute the DDL (`execSql` models `db.execute_sql`, erring
when it raises), and return the `_Idx`. A DDL error propagates unchanged. -/
def create_json_index (json1 : Bool) (execSql : String → Except String Unit)
    (table fieldName col path : String) (uniq : Bool) (nm : Option String) :
    Except IdxError _Idx :=
  if json1 = false then Except.error IdxError.noJson1
  else
    let idx := nm.getD (table ++ "_" ++ fieldName ++ "_" ++ sanitizePath path ++ "_idx")
    match execSql (indexDdl uniq idx table col path) with
    | Except.error e => Except.error (IdxError.ddlError e)
    | Except.ok _ => Except.ok ⟨idx⟩

/-- The spec's description of the sanitized path, as a single pass: strip
the leading root marker, replace path-separator and opening-bracket
characters with underscores, drop closing brackets. -/
def sanitizedPathSpec (path : String) : String :=
  String.mk ((path.data.dropWhile (· = '$')).filterMap
    (fun c => if c = '.' ∨ c = '[' then some '_' else if c = ']' then none else some c))

/-- Whether a character list does not begin with a decimal digit — the
boundary condition under which the greedy number parser stops exactly at a
rendered number. -/
def noDigitHead : List Char → Bool
  | [] => true
  | c :: _ => !(isDigitC c)

/-- The chained `lstrip`/`replace` sanitization of `create_json_index`
computes exactly the spec's single-pass description: strip the leading
root marker, turn separators and opening brackets into underscores, drop
closing brackets. -/
theorem sanitizePath_eq_spec (path : String) : sanitizePath path = sanitizedPathSpec path := by
  unfold sanitizePath sanitizedPathSpec lstripChar
  congr 1
  generalize path.data.dropWhile (· = '$') = l
  induction l with
  | nil => rfl
  | cons c t ih =>
    by_cases h₁ : c = '.'
    · subst h₁; simpa [replaceChar, dropCharAll] using ih
    · by_cases h₂ : c = '['
      · subst h₂; simpa [replaceChar, dropCharAll] using ih
      · by_cases h₃ : c = ']'
        · subst h₃; simpa [replaceChar, dropCharAll] using ih
        · simpa [replaceChar, dropCharAll, h₁, h₂, h₃] using ih

/-- Claim C5: for a null input, `db_value` returns the two-character
empty-object marker when the field was configured with
`null_to_empty=True`, and an engine NULL when it was configured with
`null_to_empty=False`. -/
theorem db_value_null_marker (d : PyObj → Option String) (l : String → Option PyObj) :
    SQLiteJSONField.db_value ⟨true, d, l⟩ pyNone = some (some "{}") ∧
    SQLiteJSONField.db_value ⟨false, d, l⟩ pyNone = some none ∧
    "{}".length = 2 :=
  ⟨rfl, rfl, rfl⟩

/-- Claim C7: once a handle has been probed (it has a cache entry), every
subsequent `_check_json1` call with that handle returns the cached flag,
leaves the cache unchanged, and does not execute the probe query; in
particular a second call right after a first one never re-probes. -/
theorem check_json1_cached :
    (∀ (probeOk : Nat → Bool) (db freshId : Nat) (cache : List (Nat × Bool)) (b : Bool),
      lookupCache cache db = some b →
      check_json1 probeOk (some db) freshId cache = (b, cache, false)) ∧
    (∀ (probeOk : Nat → Bool) (db f₁ f₂ : Nat) (cache : List (Nat × Bool)),
      check_json1 probeOk (some db) f₂ (check_json1 probeOk (some db) f₁ cache).2.1 =
        ((check_json1 probeOk (some db) f₁ cache).1,
          (check_json1 probeOk (some db) f₁ cache).2.1, false)) := by
  constructor
  · intro probeOk db freshId cache b h
    simp [check_json1, h]
  · intro probeOk db f₁ f₂ cache
    cases h : lookupCache cache db with
    | some b => simp [check_json1, h]
    | none => simp [check_json1, h, lookupCache]

/-- Witness for C7: a handle already cached as `false` yields `false`, an
unchanged cache, and no probe execution. -/
theorem check_json1_cached_witness :
    check_json1 (fun _ => true) (some 5) 0 [(5, false)] = (false, [(5, false)], false) :=
  check_json1_cached.1 (fun _ => true) 5 0 [(5, false)] false rfl

/-- Claim C10: a no-handle `_check_json1` call probes the fresh in-memory
handle it creates: since that handle's identity is new to the cache, the
call executes the probe query and the cache grows by exactly one entry —
the no-handle form never produces a cache hit. -/
theorem check_json1_fresh_probe (probeOk : Nat → Bool) (freshId : Nat)
    (cache : List (Nat × Bool)) (h : lookupCache cache freshId = none) :
    check_json1 probeOk none freshId cache =
      (probeOk freshId, (freshId, probeOk freshId) :: cache, true) ∧
    ((freshId, probeOk freshId) :: cache).length = cache.length + 1 := by
  refine ⟨?_, rfl⟩
  simp [check_json1, h]

/-- Witness for C10: a fresh handle id absent from a nonempty cache is
probed and appended. -/
theorem check_json1_fresh_probe_witness :
    check_json1 (fun _ => true) none 3 [(5, false)] = (true, [(3, true), (5, false)], true) ∧
    ([(3, true), (5, false)] : List (Nat × Bool)).length = [(5, false)].length + 1 :=
  check_json1_fresh_probe (fun _ => true) 3 [(5, false)] rfl

/-- Claim C8: `create_json_index` raises the JSON1 configuration error
when the capability flag is false, and with the flag true any error raised
by the DDL execution propagates unchanged to the caller. -/
theorem create_json_index_errors :
    (∀ (execSql : String → Except String Unit) (table fieldName col path : String)
      (uniq : Bool) (nm : Option String),
      create_json_index false execSql table fieldName col path uniq nm =
        Except.error IdxError.noJson1) ∧
    (∀ (execSql : String → Except String Unit) (table fieldName col path : String)
      (uniq : Bool) (nm : Option String) (e : String),
      (∀ s, execSql s = Except.error e) →
      create_json_index true execSql table fieldName col path uniq nm =
        Except.error (IdxError.ddlError e)) := by
  constructor
  · intro execSql table fieldName col path uniq nm
    rfl
  · intro execSql table fieldName col path uniq nm e h
    simp [create_json_index, h]

/-- Witness for C8: a DDL execution failing with "disk I/O error"
propagates that error. -/
theorem create_json_index_errors_witness :
    create_json_index true (fun _ => Except.error "disk I/O error")
      "users" "data" "data" "$.a" false none =
      Except.error (IdxError.ddlError "disk I/O error") :=
  create_json_index_errors.2 (fun _ => Except.error "disk I/O error")
    "users" "data" "data" "$.a" false none "disk I/O error" (fun _ => rfl)

/-- Claim C9: with no explicit name, `create_json_index` resolves and
returns the index name `table_fieldName_sanitizedPath_idx`, where the
sanitized path strips the leading root marker, replaces separator and
opening-bracket characters with underscores, and removes closing
brackets. -/
theorem create_json_index_default_name (execSql : String → Except String Unit)
    (table fieldName col path : String) (uniq : Bool)
    (h : ∀ s, execSql s = Except.ok ()) :
    create_json_index true execSql table fieldName col path uniq none =
      Except.ok ⟨table ++ "_" ++ fieldName ++ "_" ++ sanitizedPathSpec path ++ "_idx"⟩ := by
  simp [create_json_index, h, sanitizePath_eq_spec]

/-- Witness for C9: the default name for table `users`, field `data`, path
`$.a.b[0]`. -/
theorem create_json_index_default_name_witness :
    create_json_index true (fun _ => Except.ok ()) "users" "data" "data" "$.a.b[0]" false none =
      Except.ok ⟨"users_data__a_b_0_idx"⟩ :=
  (create_json_index_default_name (fun _ => Except.ok ())
    "users" "data" "data" "$.a.b[0]" false (fun _ => rfl)).trans rfl

/-- Claim C3 (code bug): `contains_key` builds
`json_extract(col, path) IS NULL` — peewee's `>>` is the `IS` operator —
contradicting both the claim's two-part predicate
(`json_valid AND json_type(json_extract(...)) IS NOT NULL`) and the
function's own docstring (`IS NOT NULL`). On a row decoding to the empty
mapping the code's predicate evaluates to true where the claim says
false, and on malformed column text it is an SQL error rather than
false. -/
theorem contains_key_is_null_bug :
    contains_key_expr "$.a" =
      SqlExpr.isOp (SqlExpr.fnJsonExtract SqlExpr.field (SqlExpr.litText "$.a"))
        SqlExpr.litNull ∧
    evalExpr "{}" (contains_key_expr "$.a") = some (SqlVal.int 1) ∧
    evalExpr "\x7b\"a\":null\x7d" (contains_key_expr "$.a") = some (SqlVal.int 1) ∧
    evalExpr "\x7bnot json" (contains_key_expr "$.a") = none :=
  ⟨rfl, rfl, rfl, rfl⟩

/-- Claim C2 (counterexample): extracting `$.name` from a row holding the
object with `"name": "Alice"` through the code's
`json_extract(...).cast("TEXT")` expression yields the bare text `Alice`,
which is not valid JSON text and is not the quoted JSON text the claim
requires. -/
theorem json_extract_counterexample :
    evalExpr "\x7b\"name\":\"Alice\"\x7d" (json_extract_expr "$.name") =
      some (SqlVal.text "Alice") ∧
    jsonValid "Alice" = false ∧
    "Alice" ≠ "\"Alice\"" :=
  ⟨rfl, rfl, by decide⟩

/-- Claim C2 (amended): the code's extract expression is
`CAST(json_extract(column, path) AS TEXT)`; whenever the column's JSON
document holds a string leaf at the path, selecting the expression yields
that bare unquoted text. -/
theorem json_extract_bare_text (doc : String) (j : PyObj) (path : String)
    (ks : List String) (s : String) (h₁ : jsonParse doc = some j)
    (h₂ : parsePath path = some ks) (h₃ : pathLookup j ks = some (pyStr s)) :
    evalExpr doc (json_extract_expr path) = some (SqlVal.text s) := by
  simp [evalExpr, json_extract_expr, jsonExtractFn, h₁, h₂, h₃, pyToSql, castText]

/-- Witness for C2's amended statement at the `$.name`/`Alice` example. -/
theorem json_extract_bare_text_witness :
    evalExpr "\x7b\"name\":\"Alice\"\x7d" (json_extract_expr "$.name") =
      some (SqlVal.text "Alice") :=
  json_extract_bare_text "\x7b\"name\":\"Alice\"\x7d" (pyDict [("name", pyStr "Alice")])
    "$.name" ["name"] "Alice" rfl rfl rfl

/-- Claim C1: `python_value` never raises — for every field configuration
and every runtime input it returns a value; null decodes to the empty
mapping, and text or byte input on which the decoder fails decodes to
the empty mapping rather than propagating the error. -/
theorem python_value_never_raises (f : SQLiteJSONField) (v : PyObj) :
    (f.python_value v).isSome = true ∧
    f.python_value pyNone = some (pyDict []) ∧
    (∀ s, f.loads s = none → f.python_value (pyStr s) = some (pyDict [])) ∧
    (∀ bs, f.loads (String.mk (utf8DecodeIgnore bs)) = none →
      f.python_value (pyBytes bs) = some (pyDict [])) := by
  refine ⟨?_, rfl, ?_, ?_⟩
  · cases v <;> simp [SQLiteJSONField.python_value]
  · intro s h
    simp [SQLiteJSONField.python_value, try_load, h]
  · intro bs h
    simp [SQLiteJSONField.python_value, try_load, h]

/-- Witness for C1: with the default serializer, the malformed text
`{not json` and the invalid byte sequence `\xff\xfe` both decode to the
empty mapping, null decodes to the empty mapping, and an unexpected input
does not raise. -/
theorem python_value_never_raises_witness :
    (defaultField.python_value pyOther).isSome = true ∧
    defaultField.python_value pyNone = some (pyDict []) ∧
    defaultField.python_value (pyStr "\x7bnot json") = some (pyDict []) ∧
    defaultField.python_value (pyBytes [255, 254]) = some (pyDict []) := by
  obtain ⟨h₁, h₂, h₃, h₄⟩ := python_value_never_raises defaultField pyOther
  exact ⟨h₁, h₂, h₃ "\x7bnot json" rfl, h₄ [255, 254] rfl⟩

/-- Claim C4 (counterexample): null is a JSON-representable value with no
pre-existing text representation, yet the write/read round trip maps it to
the empty mapping — under the default `null_to_empty=True` (stored as the
marker) and also with `null_to_empty=False` (stored as an engine NULL). -/
theorem roundtrip_null_counterexample :
    representable pyNone = true ∧
    roundTrip defaultField pyNone = some (pyDict []) ∧
    roundTrip { defaultField with null_to_empty := false } pyNone = some (pyDict []) ∧
    some (pyDict []) ≠ some pyNone := by
  refine ⟨rfl, rfl, rfl, by simp⟩

/-- Facts about digit characters, by bounded enumeration. -/
theorem digitChar_facts : ∀ d : Nat, d < 10 →
    isDigitC (digitChar d) = true ∧ digitVal (digitChar d) = d ∧
    isWsC (digitChar d) = false ∧ digitChar d ≠ 'n' ∧ digitChar d ≠ 't' ∧
    digitChar d ≠ 'f' ∧ digitChar d ≠ '"' ∧ digitChar d ≠ '[' ∧
    digitChar d ≠ '{' ∧ digitChar d ≠ '-' ∧ digitChar d ≠ ']' ∧
    digitChar d ≠ '}' ∧ digitChar d ≠ ',' := by decide

/-- Hex digit round trip below 16. -/
theorem hexVal_hexChar : ∀ m : Nat, m < 16 → hexVal (hexChar m) = some m := by decide

/-- Whitespace skipping does not move past a non-whitespace head. -/
theorem skipWs_cons (c : Char) (l : List Char) (h : isWsC c = false) :
    skipWs (c :: l) = c :: l := by
  simp [skipWs, List.dropWhile_cons, h]

/-- A rendered natural number is a nonempty digit string. -/
theorem natDigits_spec (n : Nat) :
    natDigits n ≠ [] ∧ ∀ c ∈ natDigits n, isDigitC c = true := by
  induction n using Nat.strong_induction_on with
  | _ n ih =>
    rw [natDigits]
    by_cases h : n < 10
    · simp only [if_pos h]
      refine ⟨by simp, ?_⟩
      intro c hc
      simp only [List.mem_singleton] at hc
      subst hc
      exact (digitChar_facts n h).1
    · simp only [if_neg h]
      have hd := ih (n / 10) (Nat.div_lt_self (by omega) (by omega))
      refine ⟨by simp [hd.1], ?_⟩
      intro c hc
      rcases List.mem_append.mp hc with h₁ | h₂
      · exact hd.2 c h₁
      · simp only [List.mem_singleton] at h₂
        subst h₂
        exact (digitChar_facts (n % 10) (Nat.mod_lt n (by omega))).1

/-- Folding the digit-accumulation step over a rendered natural recovers
it (relative to an arbitrary accumulator). -/
theorem natDigits_foldl (n : Nat) : ∀ acc : Nat,
    (natDigits n).foldl (fun a c => a * 10 + digitVal c) acc =
      acc * 10 ^ (natDigits n).length + n := by
  induction n using Nat.strong_induction_on with
  | _ n ih =>
    intro acc
    rw [natDigits]
    by_cases h : n < 10
    · simp [if_pos h, List.foldl, (digitChar_facts n h).2.1]
    · simp only [if_neg h]
      rw [List.foldl_append, ih (n / 10) (Nat.div_lt_self (by omega) (by omega)) acc]
      simp [List.foldl, (digitChar_facts (n % 10) (Nat.mod_lt n (by omega))).2.1,
        pow_succ]
      ring_nf
      omega

/-- `takeWhile` and `dropWhile` split an all-satisfying prefix exactly at a
failing head. -/
theorem takeWhile_dropWhile_append (p : Char → Bool) :
    ∀ (a rest : List Char), (∀ c ∈ a, p c = true) →
    (match rest with | [] => True | c :: _ => p c = false) →
    (a ++ rest).takeWhile p = a ∧ (a ++ rest).dropWhile p = rest := by
  intro a
  induction a with
  | nil =>
    intro rest _ hr
    cases rest with
    | nil => simp
    | cons c t =>
      simp only at hr
      simp [List.takeWhile_cons, List.dropWhile_cons, hr]
  | cons c t ih =>
    intro rest ha hr
    have hc : p c = true := ha c (by simp)
    have ht := ih rest (fun x hx => ha x (by simp [hx])) hr
    simp [List.takeWhile_cons, List.dropWhile_cons, hc, ht.1, ht.2]

/-- The greedy number parser consumes exactly a rendered natural when the
remainder does not begin with a digit. -/
theorem parseNat_natDigits (n : Nat) (rest : List Char) (h : noDigitHead rest = true) :
    parseNat (natDigits n ++ rest) = some (n, rest) := by
  have hd := natDigits_spec n
  have hsplit := takeWhile_dropWhile_append isDigitC (natDigits n) rest hd.2 (by
    cases rest with
    | nil => trivial
    | cons c t => simpa [noDigitHead] using h)
  have hne : (natDigits n).isEmpty = false := by
    cases hh : natDigits n with
    | nil => exact absurd hh hd.1
    | cons a b => rfl
  have hfold := natDigits_foldl n 0
  simp only [Nat.zero_mul, Nat.zero_add] at hfold
  simp [parseNat, hsplit.1, hsplit.2, hne, hfold]

/-- The string-body parser inverts JSON escaping: it consumes the escaped
characters and the closing quote exactly. -/
theorem parseStringBody_escape : ∀ (l rest : List Char),
    parseStringBody (escapeL l ++ '"' :: rest) = some (l, rest) := by
  have hne₁ : ('\\' : Char) ≠ '"' := by decide
  have hne₂ : ('"' : Char) ≠ 'u' := by decide
  have hne₃ : ('\\' : Char) ≠ 'u' := by decide
  intro l
  induction l with
  | nil =>
    intro rest
    rw [parseStringBody.eq_def]
    simp [escapeL]
  | cons c t ih =>
    intro rest
    by_cases h₁ : c = '"'
    · subst h₁
      rw [show escapeL ('"' :: t) ++ '"' :: rest =
        '\\' :: '"' :: (escapeL t ++ '"' :: rest) from by simp [escapeL, escapeChar]]
      rw [parseStringBody.eq_def]
      simp [unescapeChar, hne₁, hne₂, ih]
    · by_cases h₂ : c = '\\'
      · subst h₂
        rw [show escapeL ('\\' :: t) ++ '"' :: rest =
          '\\' :: '\\' :: (escapeL t ++ '"' :: rest) from by simp [escapeL, escapeChar, hne₁]]
        rw [parseStringBody.eq_def]
        simp [unescapeChar, hne₁, hne₃, ih]
      · by_cases h₃ : c.toNat < 32
        · have ha := hexVal_hexChar (c.toNat / 16) (by omega)
          have hb := hexVal_hexChar (c.toNat % 16) (Nat.mod_lt _ (by omega))
          have h0 : hexVal '0' = some 0 := by decide
          have hdm : c.toNat / 16 * 16 + c.toNat % 16 = c.toNat := by omega
          have hv' : Nat.isValidChar c.toNat := Or.inl (by omega)
          rw [show escapeL (c :: t) ++ '"' :: rest =
            '\\' :: 'u' :: '0' :: '0' :: hexChar (c.toNat / 16) :: hexChar (c.toNat % 16) ::
              (escapeL t ++ '"' :: rest) from by simp [escapeL, escapeChar, h₁, h₂, h₃]]
          rw [parseStringBody.eq_def]
          simp [hne₁, ha, hb, h0, hdm, hv', Char.ofNat_toNat, ih]
        · rw [show escapeL (c :: t) ++ '"' :: rest = c :: (escapeL t ++ '"' :: rest) from by
            simp [escapeL, escapeChar, h₁, h₂, h₃]]
          rw [parseStringBody.eq_def]
          simp [h₁, h₂, h₃, ih]

/-- `parseValue` on a `null` literal. -/
theorem parseValue_null (f : Nat) (rest : List Char) :
    parseValue (f + 1) ('n' :: 'u' :: 'l' :: 'l' :: rest) = some (pyNone, rest) := by
  rw [parseValue.eq_def]
  simp [skipWs, List.dropWhile_cons, show isWsC 'n' = false from by decide]

/-- `parseValue` on a `true` literal. -/
theorem parseValue_true (f : Nat) (rest : List Char) :
    parseValue (f + 1) ('t' :: 'r' :: 'u' :: 'e' :: rest) = some (pyBool true, rest) := by
  rw [parseValue.eq_def]
  simp [skipWs, List.dropWhile_cons, show isWsC 't' = false from by decide,
    show ('t' : Char) ≠ 'n' from by decide]

/-- `parseValue` on a `false` literal. -/
theorem parseValue_false (f : Nat) (rest : List Char) :
    parseValue (f + 1) ('f' :: 'a' :: 'l' :: 's' :: 'e' :: rest) = some (pyBool false, rest) := by
  rw [parseValue.eq_def]
  simp [skipWs, List.dropWhile_cons, show isWsC 'f' = false from by decide,
    show ('f' : Char) ≠ 'n' from by decide, show ('f' : Char) ≠ 't' from by decide]

/-- `parseValue` on a string literal. -/
theorem parseValue_quote (f : Nat) (rest : List Char) :
    parseValue (f + 1) ('"' :: rest) =
      (parseStringBody rest).map (fun p => (pyStr (String.mk p.1), p.2)) := by
  rw [parseValue.eq_def]
  simp [skipWs, List.dropWhile_cons, show isWsC '"' = false from by decide,
    show ('"' : Char) ≠ 'n' from by decide, show ('"' : Char) ≠ 't' from by decide,
    show ('"' : Char) ≠ 'f' from by decide]

/-- `parseValue` on an array opener. -/
theorem parseValue_lbrack (f : Nat) (rest : List Char) :
    parseValue (f + 1) ('[' :: rest) = parseArr f rest := by
  rw [parseValue.eq_def]
  simp [skipWs, List.dropWhile_cons, show isWsC '[' = false from by decide,
    show ('[' : Char) ≠ 'n' from by decide, show ('[' : Char) ≠ 't' from by decide,
    show ('[' : Char) ≠ 'f' from by decide, show ('[' : Char) ≠ '"' from by decide]

/-- `parseValue` on an object opener. -/
theorem parseValue_lbrace (f : Nat) (rest : List Char) :
    parseValue (f + 1) ('{' :: rest) = parseObj f rest := by
  rw [parseValue.eq_def]
  simp [skipWs, List.dropWhile_cons, show isWsC '{' = false from by decide,
    show ('{' : Char) ≠ 'n' from by decide, show ('{' : Char) ≠ 't' from by decide,
    show ('{' : Char) ≠ 'f' from by decide, show ('{' : Char) ≠ '"' from by decide,
    show ('{' : Char) ≠ '[' from by decide]

/-- `parseValue` on a minus sign. -/
theorem parseValue_minus (f : Nat) (rest : List Char) :
    parseValue (f + 1) ('-' :: rest) =
      (parseNat rest).map (fun p => (pyInt (-(p.1 : Int)), p.2)) := by
  rw [parseValue.eq_def]
  simp [skipWs, List.dropWhile_cons, show isWsC '-' = false from by decide,
    show ('-' : Char) ≠ 'n' from by decide, show ('-' : Char) ≠ 't' from by decide,
    show ('-' : Char) ≠ 'f' from by decide, show ('-' : Char) ≠ '"' from by decide,
    show ('-' : Char) ≠ '[' from by decide, show ('-' : Char) ≠ '{' from by decide]

/-- A digit character is none of the dispatch characters and is not
whitespace. -/
theorem digit_not_special (c : Char) (h : isDigitC c = true) :
    isWsC c = false ∧ c ≠ 'n' ∧ c ≠ 't' ∧ c ≠ 'f' ∧ c ≠ '"' ∧ c ≠ '[' ∧
    c ≠ '{' ∧ c ≠ '-' := by
  have hws : isWsC c = false := by
    cases hw : isWsC c
    · rfl
    · exfalso
      have h' : ((c = ' ' ∨ c = '\n') ∨ c = '\r') ∨ c = '\t' := by simpa [isWsC] using hw
      rcases h' with ((h' | h') | h') | h' <;> subst h' <;> exact absurd h (by decide)
  refine ⟨hws, ?_, ?_, ?_, ?_, ?_, ?_, ?_⟩ <;>
    intro h' <;> subst h' <;> exact absurd h (by decide)

/-- `parseValue` on a leading digit. -/
theorem parseValue_digit (f : Nat) (c : Char) (rest : List Char) (h : isDigitC c = true) :
    parseValue (f + 1) (c :: rest) =
      (parseNat (c :: rest)).map (fun p => (pyInt (p.1 : Int), p.2)) := by
  obtain ⟨hw, h₁, h₂, h₃, h₄, h₅, h₆, h₇⟩ := digit_not_special c h
  rw [parseValue.eq_def]
  simp [skipWs, List.dropWhile_cons, hw, h, h₁, h₂, h₃, h₄, h₅, h₆, h₇]

/-- A rendered natural starts with a digit character. -/
theorem natDigits_head (n : Nat) : ∃ d r, d < 10 ∧ natDigits n = digitChar d :: r := by
  induction n using Nat.strong_induction_on with
  | _ n ih =>
    rw [natDigits]
    by_cases h : n < 10
    · exact ⟨n, [], h, by simp [h]⟩
    · obtain ⟨d, r, hd, hr⟩ := ih (n / 10) (Nat.div_lt_self (by omega) (by omega))
      exact ⟨d, r ++ [digitChar (n % 10)], hd, by simp [h, hr]⟩

/-- Every value has positive fuel measure. -/
theorem psize_pos (v : PyObj) : 1 ≤ psize v := by
  cases v <;> simp [psize] <;> omega

/-- A representable value renders to a nonempty string whose first
character is not whitespace and is not a closing bracket. -/
theorem renderL_head (v : PyObj) (h : representable v = true) :
    ∃ c r, renderL v = c :: r ∧ isWsC c = false ∧ c ≠ ']' := by
  cases v with
  | pyNone => exact ⟨'n', _, rfl, by decide, by decide⟩
  | pyBool b =>
    cases b
    · exact ⟨'f', _, rfl, by decide, by decide⟩
    · exact ⟨'t', _, rfl, by decide, by decide⟩
  | pyInt i =>
    by_cases hneg : i < 0
    · exact ⟨'-', natDigits i.natAbs, by simp [renderL, intDigits, hneg], by decide, by decide⟩
    · obtain ⟨d, r, hd, hr⟩ := natDigits_head i.natAbs
      refine ⟨digitChar d, r, by simp [renderL, intDigits, hneg, hr], ?_, ?_⟩
      · exact (digitChar_facts d hd).2.2.1
      · exact (digitChar_facts d hd).2.2.2.2.2.2.2.2.2.2.1
  | pyStr s => exact ⟨'"', _, rfl, by decide, by decide⟩
  | pyList xs => exact ⟨'[', _, rfl, by decide, by decide⟩
  | pyDict kvs => exact ⟨'{', _, rfl, by decide, by decide⟩
  | pyFloat => exact absurd h (by simp [representable])
  | pyBytes bs => exact absurd h (by simp [representable])
  | pyOther => exact absurd h (by simp [representable])

/-- Skipping whitespace is a no-op in front of a rendered representable
value. -/
theorem skipWs_renderL (v : PyObj) (h : representable v = true) (rest : List Char) :
    skipWs (renderL v ++ rest) = renderL v ++ rest := by
  obtain ⟨c, r, hr, hws, _⟩ := renderL_head v h
  rw [hr]
  exact skipWs_cons c (r ++ rest) hws

/-- `parseValue` consumes exactly a rendered integer when the remainder
does not begin with a digit. -/
theorem parseValue_intDigits (i : Int) (f : Nat) (rest : List Char)
    (h : noDigitHead rest = true) :
    parseValue (f + 1) (intDigits i ++ rest) = some (pyInt i, rest) := by
  by_cases hneg : i < 0
  · have hcast : -(i.natAbs : Int) = i := by omega
    have habs : -|i| = i := by rw [abs_of_neg hneg]; ring
    simp [intDigits, hneg, parseValue_minus, parseNat_natDigits i.natAbs rest h, hcast, habs]
  · obtain ⟨d, r, hd, hr⟩ := natDigits_head i.natAbs
    have hdig : isDigitC (digitChar d) = true := (digitChar_facts d hd).1
    have hcast : ((i.natAbs : Nat) : Int) = i := by omega
    have habs : |i| = i := abs_of_nonneg (by omega)
    have hstep : intDigits i ++ rest = digitChar d :: (r ++ rest) := by
      simp [intDigits, hneg, hr]
    rw [hstep, parseValue_digit f (digitChar d) (r ++ rest) hdig,
      show digitChar d :: (r ++ rest) = natDigits i.natAbs ++ rest from by simp [hr],
      parseNat_natDigits i.natAbs rest h]
    simp [hcast, habs]

/-- An element's fuel measure is below its list's. -/
theorem psizeElems_mem : ∀ (xs : List PyObj) (w : PyObj), w ∈ xs → psize w < psizeElems xs := by
  intro xs
  induction xs with
  | nil => intro w hw; cases hw
  | cons x t ih =>
    intro w hw
    rcases List.mem_cons.mp hw with rfl | hw'
    · simp [psizeElems]; omega
    · have := ih w hw'
      simp [psizeElems]; omega

/-- A member value's fuel measure is below its list's. -/
theorem psizeMembers_mem : ∀ (kvs : List (String × PyObj)) (k : String) (v : PyObj),
    (k, v) ∈ kvs → psize v < psizeMembers kvs := by
  intro kvs
  induction kvs with
  | nil => intro k v hw; cases hw
  | cons p t ih =>
    intro k v hw
    rcases List.mem_cons.mp hw with h | hw'
    · obtain ⟨k', v'⟩ := p
      obtain ⟨rfl, rfl⟩ := Prod.mk.injEq .. ▸ h
      simp [psizeMembers]; omega
    · have := ih k v hw'
      obtain ⟨k', v'⟩ := p
      simp [psizeMembers]; omega

/-- Elements of a representable list are representable. -/
theorem representableElems_mem : ∀ (xs : List PyObj) (w : PyObj), w ∈ xs →
    representableElems xs = true → representable w = true := by
  intro xs
  induction xs with
  | nil => intro w hw; cases hw
  | cons x t ih =>
    intro w hw hall
    simp only [representableElems, Bool.and_eq_true] at hall
    rcases List.mem_cons.mp hw with rfl | hw'
    · exact hall.1
    · exact ih w hw' hall.2

/-- Member values of a representable member list are representable. -/
theorem representableMembers_mem : ∀ (kvs : List (String × PyObj)) (k : String) (v : PyObj),
    (k, v) ∈ kvs → representableMembers kvs = true → representable v = true := by
  intro kvs
  induction kvs with
  | nil => intro k v hw; cases hw
  | cons p t ih =>
    intro k v hw hall
    obtain ⟨k', v'⟩ := p
    simp only [representableMembers, Bool.and_eq_true] at hall
    rcases List.mem_cons.mp hw with h | hw'
    · obtain ⟨rfl, rfl⟩ := Prod.mk.injEq .. ▸ h
      exact hall.1
    · exact ih k v hw' hall.2

/-- The element loop of the array parser reconsumes rendered elements up
to the closing bracket, given the value-level induction hypothesis. -/
theorem parseElems_render (N : Nat)
    (ih : ∀ w, psize w ≤ N → representable w = true → ∀ f rest, psize w ≤ f →
      noDigitHead rest = true → parseValue f (renderL w ++ rest) = some (w, rest)) :
    ∀ (xs : List PyObj) (x : PyObj),
      (∀ w ∈ x :: xs, psize w ≤ N ∧ representable w = true) →
      ∀ (e : Nat) (rest : List Char), psizeElems (x :: xs) ≤ e →
      parseElems e (renderElems (x :: xs) ++ ']' :: rest) = some (x :: xs, rest) := by
  intro xs
  induction xs with
  | nil =>
    intro x hx e rest he
    have hx' := hx x (by simp)
    simp only [psizeElems] at he
    obtain ⟨e', rfl⟩ : ∃ e', e = e' + 1 := ⟨e - 1, by omega⟩
    have h₁ : parseValue e' (renderL x ++ ']' :: rest) = some (x, ']' :: rest) :=
      ih x hx'.1 hx'.2 e' (']' :: rest) (by omega) rfl
    rw [parseElems.eq_def]
    simp [renderElems, h₁, skipWs, List.dropWhile_cons,
      show isWsC ']' = false from by decide]
  | cons y ys ihl =>
    intro x hx e rest he
    have hx' := hx x (by simp)
    simp only [psizeElems] at he
    obtain ⟨e', rfl⟩ : ∃ e', e = e' + 1 := ⟨e - 1, by omega⟩
    have h₁ : parseValue e' (renderL x ++ ',' :: (renderElems (y :: ys) ++ ']' :: rest)) =
        some (x, ',' :: (renderElems (y :: ys) ++ ']' :: rest)) :=
      ih x hx'.1 hx'.2 e' _ (by omega) rfl
    have h₂ : parseElems e' (renderElems (y :: ys) ++ ']' :: rest) = some (y :: ys, rest) := by
      apply ihl y (fun w hw => hx w (by simp at hw ⊢; tauto)) e' rest
      simp only [psizeElems] at he ⊢
      omega
    rw [parseElems.eq_def]
    simp [renderElems, h₁, h₂, skipWs, List.dropWhile_cons,
      show isWsC ',' = false from by decide]

/-- The member loop of the object parser reconsumes rendered members up to
the closing brace, given the value-level induction hypothesis. -/
theorem parseMembers_render (N : Nat)
    (ih : ∀ w, psize w ≤ N → representable w = true → ∀ f rest, psize w ≤ f →
      noDigitHead rest = true → parseValue f (renderL w ++ rest) = some (w, rest)) :
    ∀ (kvs : List (String × PyObj)) (k : String) (v : PyObj),
      (∀ k' v', (k', v') ∈ (k, v) :: kvs → psize v' ≤ N ∧ representable v' = true) →
      ∀ (e : Nat) (rest : List Char), psizeMembers ((k, v) :: kvs) ≤ e →
      parseMembers e (renderMembers ((k, v) :: kvs) ++ '}' :: rest) =
        some ((k, v) :: kvs, rest) := by
  intro kvs
  induction kvs with
  | nil =>
    intro k v hkv e rest he
    have hv := hkv k v (by simp)
    simp only [psizeMembers] at he
    obtain ⟨e', rfl⟩ : ∃ e', e = e' + 1 := ⟨e - 1, by omega⟩
    have hkey : parseStringBody (escapeL k.data ++ '"' :: (':' :: (renderL v ++ '}' :: rest))) =
        some (k.data, ':' :: (renderL v ++ '}' :: rest)) :=
      parseStringBody_escape k.data (':' :: (renderL v ++ '}' :: rest))
    have h₁ : parseValue e' (renderL v ++ '}' :: rest) = some (v, '}' :: rest) :=
      ih v hv.1 hv.2 e' ('}' :: rest) (by omega) rfl
    rw [parseMembers.eq_def]
    simp [renderMembers, hkey, h₁, skipWs, List.dropWhile_cons,
      show isWsC '"' = false from by decide, show isWsC ':' = false from by decide,
      show isWsC '}' = false from by decide, show String.mk k.data = k from rfl]
  | cons p t ihl =>
    intro k v hkv e rest he
    obtain ⟨k₂, v₂⟩ := p
    have hv := hkv k v (by simp)
    simp only [psizeMembers] at he
    obtain ⟨e', rfl⟩ : ∃ e', e = e' + 1 := ⟨e - 1, by omega⟩
    have hkey : parseStringBody (escapeL k.data ++ '"' ::
        (':' :: (renderL v ++ ',' :: (renderMembers ((k₂, v₂) :: t) ++ '}' :: rest)))) =
        some (k.data, ':' :: (renderL v ++ ',' :: (renderMembers ((k₂, v₂) :: t) ++ '}' :: rest))) :=
      parseStringBody_escape k.data _
    have h₁ : parseValue e' (renderL v ++ ',' :: (renderMembers ((k₂, v₂) :: t) ++ '}' :: rest)) =
        some (v, ',' :: (renderMembers ((k₂, v₂) :: t) ++ '}' :: rest)) :=
      ih v hv.1 hv.2 e' _ (by omega) rfl
    have h₂ : parseMembers e' (renderMembers ((k₂, v₂) :: t) ++ '}' :: rest) =
        some ((k₂, v₂) :: t, rest) := by
      apply ihl k₂ v₂ (fun k' v' hw => hkv k' v' (by simp at hw ⊢; tauto)) e' rest
      simp only [psizeMembers] at he ⊢
      omega
    rw [parseMembers.eq_def]
    simp [renderMembers, hkey, h₁, h₂, skipWs, List.dropWhile_cons,
      show isWsC '"' = false from by decide, show isWsC ':' = false from by decide,
      show isWsC ',' = false from by decide, show String.mk k.data = k from rfl]

/-- The decoder reconsumes exactly what the renderer produced: for every
representable value, parsing its rendering (with enough fuel and a
remainder that does not extend a number) yields the value back. -/
theorem parseValue_renderL : ∀ (N : Nat) (v : PyObj), psize v ≤ N → representable v = true →
    ∀ (f : Nat) (rest : List Char), psize v ≤ f → noDigitHead rest = true →
    parseValue f (renderL v ++ rest) = some (v, rest) := by
  intro N
  induction N with
  | zero =>
    intro v hv
    have := psize_pos v
    omega
  | succ N ihN =>
    intro v hv hrep f rest hf hrest
    obtain ⟨g, rfl⟩ : ∃ g, f = g + 1 := ⟨f - 1, by have := psize_pos v; omega⟩
    cases v with
    | pyNone => exact parseValue_null g rest
    | pyBool b =>
      cases b
      · exact parseValue_false g rest
      · exact parseValue_true g rest
    | pyInt i => exact parseValue_intDigits i g rest hrest
    | pyStr s =>
      rw [show renderL (pyStr s) ++ rest = '"' :: (escapeL s.data ++ '"' :: rest) from by
        simp [renderL]]
      rw [parseValue_quote, parseStringBody_escape]
      rfl
    | pyFloat => exact absurd hrep (by simp [representable])
    | pyBytes bs => exact absurd hrep (by simp [representable])
    | pyOther => exact absurd hrep (by simp [representable])
    | pyList xs =>
      rw [show renderL (pyList xs) ++ rest = '[' :: (renderElems xs ++ ']' :: rest) from by
        simp [renderL]]
      rw [parseValue_lbrack]
      simp only [representable] at hrep
      simp only [psize] at hv hf
      cases xs with
      | nil =>
        obtain ⟨g', rfl⟩ : ∃ g', g = g' + 1 := ⟨g - 1, by omega⟩
        rw [parseArr.eq_def]
        simp [renderElems, skipWs, List.dropWhile_cons, show isWsC ']' = false from by decide]
      | cons x t =>
        obtain ⟨g', rfl⟩ : ∃ g', g = g' + 1 := ⟨g - 1, by omega⟩
        have hall : ∀ w ∈ x :: t, psize w ≤ N ∧ representable w = true := by
          intro w hw
          refine ⟨?_, representableElems_mem (x :: t) w hw hrep⟩
          have := psizeElems_mem (x :: t) w hw
          omega
        have harr := parseElems_render N ihN t x hall g' rest (by omega)
        obtain ⟨c₀, r₀, hr₀, hws₀, hne₀⟩ := renderL_head x (hall x (by simp)).2
        obtain ⟨tl, htl⟩ : ∃ tl, renderElems (x :: t) ++ ']' :: rest = c₀ :: tl := by
          cases t with
          | nil => exact ⟨r₀ ++ ']' :: rest, by simp [renderElems, hr₀]⟩
          | cons y ys =>
            exact ⟨r₀ ++ ',' :: (renderElems (y :: ys) ++ ']' :: rest),
              by simp [renderElems, hr₀]⟩
        rw [htl, parseArr.eq_def]
        simp only []
        rw [skipWs_cons c₀ tl hws₀]
        simp only [hne₀, if_false, ite_false, if_neg hne₀]
        rw [← htl, harr]
        rfl
    | pyDict kvs =>
      rw [show renderL (pyDict kvs) ++ rest = '{' :: (renderMembers kvs ++ '}' :: rest) from by
        simp [renderL]]
      rw [parseValue_lbrace]
      simp only [representable] at hrep
      simp only [psize] at hv hf
      cases kvs with
      | nil =>
        obtain ⟨g', rfl⟩ : ∃ g', g = g' + 1 := ⟨g - 1, by omega⟩
        rw [parseObj.eq_def]
        simp [renderMembers, skipWs, List.dropWhile_cons, show isWsC '}' = false from by decide]
      | cons p t =>
        obtain ⟨k, v⟩ := p
        obtain ⟨g', rfl⟩ : ∃ g', g = g' + 1 := ⟨g - 1, by omega⟩
        have hall : ∀ k' v', (k', v') ∈ (k, v) :: t → psize v' ≤ N ∧ representable v' = true := by
          intro k' v' hw
          refine ⟨?_, representableMembers_mem ((k, v) :: t) k' v' hw hrep⟩
          have := psizeMembers_mem ((k, v) :: t) k' v' hw
          omega
        have hobj := parseMembers_render N ihN t k v hall g' rest (by omega)
        have hne : ('"' : Char) ≠ '}' := by decide
        obtain ⟨tl, htl⟩ : ∃ tl, renderMembers ((k, v) :: t) ++ '}' :: rest = '"' :: tl := by
          cases t with
          | nil =>
            exact ⟨escapeL k.data ++ '"' :: ':' :: renderL v ++ '}' :: rest,
              by simp [renderMembers]⟩
          | cons q ys =>
            exact ⟨(escapeL k.data ++ '"' :: ':' :: renderL v) ++
              ',' :: (renderMembers (q :: ys) ++ '}' :: rest), by simp [renderMembers]⟩
        rw [htl, parseObj.eq_def]
        simp only []
        rw [skipWs_cons '"' tl (by decide)]
        simp only [hne, if_false, ite_false, if_neg hne]
        rw [← htl, hobj]
        rfl

/-- A rendered integer is nonempty. -/
theorem intDigits_ne_nil (i : Int) : 1 ≤ (intDigits i).length := by
  obtain ⟨d, r, _, hr⟩ := natDigits_head i.natAbs
  by_cases hneg : i < 0 <;> simp [intDigits, hneg, hr]

/-- Fuel bound for array elements against their rendered length, given the
value-level bound as an induction hypothesis. -/
theorem psizeElems_le_render (N : Nat)
    (ih : ∀ w, psize w ≤ N → representable w = true →
      psize w ≤ 2 * (renderL w).length) :
    ∀ (xs : List PyObj), (∀ w ∈ xs, psize w ≤ N ∧ representable w = true) →
    psizeElems xs ≤ 2 * (renderElems xs).length + 2 := by
  intro xs
  induction xs with
  | nil => intro _; simp [psizeElems]
  | cons x t iht =>
    intro hall
    have hx := hall x (by simp)
    have hx' := ih x hx.1 hx.2
    have ht := iht (fun w hw => hall w (by simp [hw]))
    cases t with
    | nil =>
      simp only [psizeElems, renderElems] at *
      omega
    | cons y ys =>
      simp only [psizeElems, renderElems, List.length_append, List.length_cons] at *
      omega

/-- Fuel bound for object members against their rendered length, given the
value-level bound as an induction hypothesis. -/
theorem psizeMembers_le_render (N : Nat)
    (ih : ∀ w, psize w ≤ N → representable w = true →
      psize w ≤ 2 * (renderL w).length) :
    ∀ (kvs : List (String × PyObj)),
      (∀ k v, (k, v) ∈ kvs → psize v ≤ N ∧ representable v = true) →
    psizeMembers kvs ≤ 2 * (renderMembers kvs).length + 2 := by
  intro kvs
  induction kvs with
  | nil => intro _; simp [psizeMembers]
  | cons p t iht =>
    obtain ⟨k, v⟩ := p
    intro hall
    have hv := hall k v (by simp)
    have hv' := ih v hv.1 hv.2
    have ht := iht (fun k' v' hw => hall k' v' (by simp [hw]))
    cases t with
    | nil =>
      simp only [psizeMembers, renderMembers, List.length_append, List.length_cons] at *
      omega
    | cons q ys =>
      simp only [psizeMembers, renderMembers, List.length_append, List.length_cons] at *
      omega

/-- The decoder's fuel stock — twice the input length plus two — suffices
for any rendered representable value: the fuel measure is bounded by twice
the rendered length. -/
theorem psize_le_renderL : ∀ (N : Nat) (v : PyObj), psize v ≤ N → representable v = true →
    psize v ≤ 2 * (renderL v).length := by
  intro N
  induction N with
  | zero =>
    intro v hv
    have := psize_pos v
    omega
  | succ N ihN =>
    intro v hv hrep
    cases v with
    | pyNone => simp [psize, renderL]
    | pyBool b => cases b <;> simp [psize, renderL]
    | pyInt i =>
      have := intDigits_ne_nil i
      simp only [psize, renderL]
      omega
    | pyStr s => simp only [psize, renderL]; simp; omega
    | pyFloat => exact absurd hrep (by simp [representable])
    | pyBytes bs => exact absurd hrep (by simp [representable])
    | pyOther => exact absurd hrep (by simp [representable])
    | pyList xs =>
      simp only [representable] at hrep
      simp only [psize] at hv
      have hall : ∀ w ∈ xs, psize w ≤ N ∧ representable w = true := by
        intro w hw
        refine ⟨?_, representableElems_mem xs w hw hrep⟩
        have := psizeElems_mem xs w hw
        omega
      have := psizeElems_le_render N ihN xs hall
      simp only [psize, renderL, List.length_cons, List.length_append]
      omega
    | pyDict kvs =>
      simp only [representable] at hrep
      simp only [psize] at hv
      have hall : ∀ k v, (k, v) ∈ kvs → psize v ≤ N ∧ representable v = true := by
        intro k v hw
        refine ⟨?_, representableMembers_mem kvs k v hw hrep⟩
        have := psizeMembers_mem kvs k v hw
        omega
      have := psizeMembers_le_render N ihN kvs hall
      simp only [psize, renderL, List.length_cons, List.length_append]
      omega

/-- The serializer pair round-trips: decoding an encoding recovers the
value. -/
theorem jsonParse_jsonDumps (v : PyObj) (s : String) (h : jsonDumps v = some s) :
    jsonParse s = some v := by
  unfold jsonDumps at h
  by_cases hr : representable v
  · rw [if_pos hr] at h
    obtain rfl : String.mk (renderL v) = s := by injection h
    have hfuel : psize v ≤ 2 * (renderL v).length + 2 := by
      have := psize_le_renderL (psize v) v le_rfl hr
      omega
    have hparse := parseValue_renderL (psize v) v le_rfl hr
      (2 * (renderL v).length + 2) [] hfuel rfl
    rw [List.append_nil] at hparse
    unfold jsonParse
    rw [show (String.mk (renderL v)).data = renderL v from rfl, hparse]
    rfl
  · rw [if_neg hr] at h
    cases h

/-- Claim C4 (amended): for every JSON-representable value that is neither
null nor a string, the write/read round trip through the default field
recovers the value exactly. -/
theorem roundtrip_nonnull (v : PyObj) (h : representable v = true)
    (hn : v ≠ pyNone) (hs : ∀ s, v ≠ pyStr s) :
    roundTrip defaultField v = some v := by
  have hd : jsonDumps v = some (String.mk (renderL v)) := by simp [jsonDumps, h]
  have hp : jsonParse (String.mk (renderL v)) = some v := jsonParse_jsonDumps v _ hd
  cases v with
  | pyNone => exact absurd rfl hn
  | pyStr s => exact absurd rfl (hs s)
  | pyBool b =>
    simp [roundTrip, SQLiteJSONField.db_value, defaultField, hd, colToPy,
      SQLiteJSONField.python_value, try_load, hp]
  | pyInt i =>
    simp [roundTrip, SQLiteJSONField.db_value, defaultField, hd, colToPy,
      SQLiteJSONField.python_value, try_load, hp]
  | pyList xs =>
    simp [roundTrip, SQLiteJSONField.db_value, defaultField, hd, colToPy,
      SQLiteJSONField.python_value, try_load, hp]
  | pyDict kvs =>
    simp [roundTrip, SQLiteJSONField.db_value, defaultField, hd, colToPy,
      SQLiteJSONField.python_value, try_load, hp]
  | pyFloat => exact absurd h (by simp [representable])
  | pyBytes bs => exact absurd h (by simp [representable])
  | pyOther => exact absurd h (by simp [representable])

/-- Witness for C4's amended statement: a mapping with a nested sequence,
string, boolean, null leaf and negative number survives the round trip. -/
theorem roundtrip_nonnull_witness :
    roundTrip defaultField
      (pyDict [("a", pyList [pyInt (-5), pyNone, pyBool true, pyStr "x"])]) =
      some (pyDict [("a", pyList [pyInt (-5), pyNone, pyBool true, pyStr "x"])]) :=
  roundtrip_nonnull (pyDict [("a", pyList [pyInt (-5), pyNone, pyBool true, pyStr "x"])])
    rfl (by simp) (fun s => by simp)

/-- Claim C6 (counterexample): a string input that is not valid JSON is
passed through unchanged by the write path, so the stored ColumnText is
neither valid JSON, nor the empty-object marker, nor null. -/
theorem db_value_invariant_counterexample :
    SQLiteJSONField.db_value defaultField (pyStr "\x7bnot json") =
      some (some "\x7bnot json") ∧
    jsonValid "\x7bnot json" = false ∧
    "\x7bnot json" ≠ "{}" :=
  ⟨rfl, rfl, by decide⟩

/-- Claim C6 (amended): with the default serializer, every accepted write
produces ColumnText that is an engine NULL, the empty-object marker, or
valid JSON text — provided any string input is itself valid JSON (strings
pass through unchanged). -/
theorem db_value_output_valid (b : Bool) (v : PyObj) (c : Option String)
    (h : SQLiteJSONField.db_value ⟨b, jsonDumps, jsonParse⟩ v = some c)
    (hstr : ∀ s, v = pyStr s → jsonValid s = true) :
    c = none ∨ c = some "{}" ∨ ∃ s, c = some s ∧ jsonValid s = true := by
  cases v with
  | pyNone =>
    cases b with
    | true =>
      right; left
      rw [show SQLiteJSONField.db_value ⟨true, jsonDumps, jsonParse⟩ pyNone =
        some (some "{}") from rfl] at h
      injection h with h
      exact h.symm
    | false =>
      left
      rw [show SQLiteJSONField.db_value ⟨false, jsonDumps, jsonParse⟩ pyNone =
        some none from rfl] at h
      injection h with h
      exact h.symm
  | pyStr s =>
    simp only [SQLiteJSONField.db_value, Option.some.injEq] at h
    right; right
    exact ⟨s, h.symm, hstr s rfl⟩
  | pyBool b' =>
    right; right
    simp only [SQLiteJSONField.db_value, Option.map_eq_some'] at h
    obtain ⟨s, hs, rfl⟩ := h
    exact ⟨s, rfl, by simp [jsonValid, jsonParse_jsonDumps _ s hs]⟩
  | pyInt i =>
    right; right
    simp only [SQLiteJSONField.db_value, Option.map_eq_some'] at h
    obtain ⟨s, hs, rfl⟩ := h
    exact ⟨s, rfl, by simp [jsonValid, jsonParse_jsonDumps _ s hs]⟩
  | pyList xs =>
    right; right
    simp only [SQLiteJSONField.db_value, Option.map_eq_some'] at h
    obtain ⟨s, hs, rfl⟩ := h
    exact ⟨s, rfl, by simp [jsonValid, jsonParse_jsonDumps _ s hs]⟩
  | pyDict kvs =>
    right; right
    simp only [SQLiteJSONField.db_value, Option.map_eq_some'] at h
    obtain ⟨s, hs, rfl⟩ := h
    exact ⟨s, rfl, by simp [jsonValid, jsonParse_jsonDumps _ s hs]⟩
  | pyFloat =>
    simp [SQLiteJSONField.db_value, jsonDumps, representable] at h
  | pyBytes bs =>
    simp [SQLiteJSONField.db_value, jsonDumps, representable] at h
  | pyOther =>
    simp [SQLiteJSONField.db_value, jsonDumps, representable] at h

/-- Witness for C6's amended statement at a concrete accepted write. -/
theorem db_value_output_valid_witness :
    (some "[null]" : Option String) = none ∨ (some "[null]" : Option String) = some "{}" ∨
    ∃ s, (some "[null]" : Option String) = some s ∧ jsonValid s = true :=
  db_value_output_valid true (pyList [pyNone]) (some "[null]") rfl
    (fun _ hs => nomatch hs)
